import Mathlib

set_option linter.unusedVariables false

/-! Verification development for the git-neo4j-analyzer backend.

The Neo4j database is modelled as a typed property graph `GraphDB` with one
field per node label / relationship type the code touches.  Cypher MERGE+SET
statements become pointwise functional updates keyed by the unique
constraints the importer creates (User.login, Repo.full_name,
Language.name).  Python dicts of language bytes become association lists,
Python ints are `Int`, floats are `ℚ` (exact arithmetic standing in for
IEEE doubles), and timestamps are `Int`. -/

/-- Attributes stored on a `User` node by `Neo4jImporter.import_user`
(neo4j_import.py lines 55-71), except `last_analyzed`, which is kept apart
because it is the one field allowed to differ between two pipeline runs. -/
structure UserProps where
  name : Option String
  bio : Option String
  location : Option String
  company : Option String
  blog : Option String
  email : Option String
  public_repos : Int
  followers : Int
  following : Int
  created_at : String
  updated_at : String
  avatar_url : String
deriving DecidableEq, Repr

/-- A `User` node: attributes plus the `last_analyzed` timestamp that
`import_user` sets from `datetime()`. -/
structure UserNode where
  props : UserProps
  last_analyzed : Int
deriving DecidableEq, Repr

/-- The `user_data` dict passed to `import_user`: login plus attributes. -/
structure UserData where
  login : String
  props : UserProps
deriving DecidableEq, Repr

/-- Attributes stored on a `Repo` node by `import_repository`
(neo4j_import.py lines 80-100). -/
structure RepoProps where
  name : String
  description : Option String
  language : Option String
  stars : Int
  forks : Int
  watchers : Int
  size : Int
  is_fork : Bool
  is_private : Bool
  created_at : String
  updated_at : String
  pushed_at : Option String
  clone_url : String
  html_url : String
  topics : List String
deriving DecidableEq, Repr

/-- A repository dict as assembled by fetch_github.py: the `full_name` key,
the attribute fields, and the `languages` byte map that `fetch_user_data`
adds (an association list standing for `Dict[str, int]`). -/
structure RepoData where
  full_name : String
  props : RepoProps
  languages : List (String × Int)
deriving DecidableEq, Repr

/-- Attributes of a `USES_LANGUAGE` relationship (neo4j_import.py
lines 123-124). -/
structure UsesRel where
  bytes : Int
  percentage : ℚ
deriving DecidableEq, Repr

/-- The graph database.  Node labels `User`, `Repo`, `Language` are keyed by
their unique constraint (login, full_name, name); `OWNS` and
`USES_LANGUAGE` relationships are keyed by their endpoint pair. -/
@[ext]
structure GraphDB where
  users : String → Option UserNode
  repos : String → Option RepoProps
  owns : String × String → Bool
  langNodes : String → Bool
  uses : String × String → Option UsesRel

/-- `import_user` (neo4j_import.py lines 53-76): MERGE the user by login and
SET every attribute, stamping `last_analyzed` with the current time `t`. -/
def import_user (t : Int) (user_data : UserData) (g : GraphDB) : GraphDB :=
  { g with users := fun l => if user_data.login = l then some ⟨user_data.props, t⟩ else g.users l }

/-- `import_repository` (lines 78-106): MATCH the user by login (when the
user node is absent the whole query matches nothing and writes nothing),
MERGE the repo by full_name, SET every attribute, MERGE the OWNS edge. -/
def import_repository (repo_data : RepoData) (username : String) (g : GraphDB) : GraphDB :=
  match g.users username with
  | none => g
  | some _ =>
    { g with
      repos := fun f => if repo_data.full_name = f then some repo_data.props else g.repos f
      owns := fun e => if (username, repo_data.full_name) = e then true else g.owns e }

/-- The percentage computed at neo4j_import.py line 117:
`(bytes_count / total_bytes) * 100 if total_bytes > 0 else 0`,
in exact arithmetic. -/
def langPct (total_bytes bytes_count : Int) : ℚ :=
  if 0 < total_bytes then ((bytes_count : ℚ) / (total_bytes : ℚ)) * 100 else 0

/-- One iteration of the loop at lines 116-134: MATCH the repo by full_name
(absent repo: the query writes nothing), MERGE the Language node, MERGE the
USES_LANGUAGE edge and SET its bytes and percentage. -/
def import_one_language (repo_full_name language : String) (bytes_count : Int)
    (percentage : ℚ) (g : GraphDB) : GraphDB :=
  match g.repos repo_full_name with
  | none => g
  | some _ =>
    { g with
      langNodes := fun n => if language = n then true else g.langNodes n
      uses := fun e =>
        if (repo_full_name, language) = e then some ⟨bytes_count, percentage⟩ else g.uses e }

/-- `import_languages` (lines 108-136): return unchanged on an empty map,
otherwise total the bytes and upsert one USES_LANGUAGE edge per entry. -/
def import_languages (repo_full_name : String) (languages : List (String × Int))
    (g : GraphDB) : GraphDB :=
  if languages = [] then g
  else
    let total_bytes := (languages.map Prod.snd).sum
    languages.foldl
      (fun g' e => import_one_language repo_full_name e.1 e.2 (langPct total_bytes e.2) g') g

/-- One iteration of the repository loop in `import_complete_user_data`
(lines 149-154): import the repo, then its languages when the map is
non-empty. -/
def import_repo_step (login : String) (g : GraphDB) (repo : RepoData) : GraphDB :=
  let g' := import_repository repo login g
  if repo.languages = [] then g' else import_languages repo.full_name repo.languages g'

/-- `import_complete_user_data` (lines 138-156): import the user first, then
every repository in order. -/
def import_complete_user_data (t : Int) (user_data : UserData)
    (repositories : List RepoData) (g : GraphDB) : GraphDB :=
  repositories.foldl (import_repo_step user_data.login) (import_user t user_data g)

/-! Write lists.  Every Cypher statement the pipeline issues is a pointwise
upsert at a key computed from the input data, so each field of the final
graph is the initial field overwritten by a list of (key, value) writes in
program order.  The helpers below make that precise. -/

/-- The last value a write list assigns to key `k` (later writes win). -/
def lastWrite [DecidableEq κ] : List (κ × α) → κ → Option α
  | [], _ => none
  | w :: ws, k =>
    match lastWrite ws k with
    | some v => some v
    | none => if w.1 = k then some w.2 else none

/-- Apply a list of keyed upserts to a partial map, in order. -/
def applyWrites [DecidableEq κ] (f : κ → Option α) (ws : List (κ × α)) : κ → Option α :=
  ws.foldl (fun f' w => fun k => if w.1 = k then some w.2 else f' k) f

/-- Apply a list of keys to set to `true` in a boolean map, in order. -/
def applyTrue [DecidableEq κ] (f : κ → Bool) (ks : List κ) : κ → Bool :=
  ks.foldl (fun f' k0 => fun k => if k0 = k then true else f' k) f

theorem applyWrites_eval [DecidableEq κ] (ws : List (κ × α)) (f : κ → Option α) (k : κ) :
    applyWrites f ws k = match lastWrite ws k with | some v => some v | none => f k := by
  induction ws generalizing f with
  | nil => rfl
  | cons w ws ih =>
    show applyWrites (fun k => if w.1 = k then some w.2 else f k) ws k = _
    rw [ih]
    cases h : lastWrite ws k with
    | some v => simp [lastWrite, h]
    | none => by_cases hw : w.1 = k <;> simp [lastWrite, h, hw]

theorem applyTrue_eval [DecidableEq κ] (ks : List κ) (f : κ → Bool) (k : κ) :
    applyTrue f ks k = (decide (k ∈ ks) || f k) := by
  induction ks generalizing f with
  | nil => simp [applyTrue]
  | cons k0 ks ih =>
    show applyTrue (fun k => if k0 = k then true else f k) ks k = _
    rw [ih]
    by_cases h : k0 = k
    · subst h
      simp [List.mem_cons]
    · have h' : ¬k = k0 := fun hk => h hk.symm
      simp [h, h', List.mem_cons]

theorem lastWrite_eq_none [DecidableEq κ] (ws : List (κ × α)) (k : κ)
    (h : ∀ w ∈ ws, w.1 ≠ k) : lastWrite ws k = none := by
  induction ws with
  | nil => rfl
  | cons w ws ih =>
    have hw : w.1 ≠ k := h w (List.mem_cons_self _ _)
    have hws : lastWrite ws k = none := ih (fun x hx => h x (List.mem_cons_of_mem _ hx))
    simp [lastWrite, hws, hw]

theorem lastWrite_of_nodup [DecidableEq κ] (ws : List (κ × α)) (k : κ) (v : α)
    (hnd : (ws.map Prod.fst).Nodup) (hm : (k, v) ∈ ws) : lastWrite ws k = some v := by
  induction ws with
  | nil => cases hm
  | cons w ws ih =>
    simp only [List.map_cons, List.nodup_cons] at hnd
    rcases List.mem_cons.mp hm with h | h
    · cases h
      have hnotin : k ∉ ws.map Prod.fst := by simpa using hnd.1
      have hws : lastWrite ws k = none := by
        apply lastWrite_eq_none
        intro x hx hxk
        exact hnotin (hxk ▸ List.mem_map_of_mem Prod.fst hx)
      simp [lastWrite, hws]
    · simp [lastWrite, ih hnd.2 h]

/-! Field-preservation lemmas: each Cypher statement touches only the parts
of the graph it writes. -/

theorem import_one_language_users (fn l : String) (b : Int) (p : ℚ) (g : GraphDB) :
    (import_one_language fn l b p g).users = g.users := by
  unfold import_one_language
  cases g.repos fn <;> rfl

theorem import_one_language_repos (fn l : String) (b : Int) (p : ℚ) (g : GraphDB) :
    (import_one_language fn l b p g).repos = g.repos := by
  unfold import_one_language
  cases g.repos fn <;> rfl

theorem import_one_language_owns (fn l : String) (b : Int) (p : ℚ) (g : GraphDB) :
    (import_one_language fn l b p g).owns = g.owns := by
  unfold import_one_language
  cases g.repos fn <;> rfl

/-- The language loop of `import_languages`, generalized over the percentage
function so that the fixed `total_bytes` can be carried through. -/
def langFold (fn : String) (pct : String × Int → ℚ) (ps : List (String × Int))
    (g : GraphDB) : GraphDB :=
  ps.foldl (fun g' e => import_one_language fn e.1 e.2 (pct e) g') g

theorem langFold_users (fn : String) (pct : String × Int → ℚ) (ps : List (String × Int))
    (g : GraphDB) : (langFold fn pct ps g).users = g.users := by
  induction ps generalizing g with
  | nil => rfl
  | cons e ps ih =>
    show (langFold fn pct ps (import_one_language fn e.1 e.2 (pct e) g)).users = g.users
    rw [ih, import_one_language_users]

theorem langFold_repos (fn : String) (pct : String × Int → ℚ) (ps : List (String × Int))
    (g : GraphDB) : (langFold fn pct ps g).repos = g.repos := by
  induction ps generalizing g with
  | nil => rfl
  | cons e ps ih =>
    show (langFold fn pct ps (import_one_language fn e.1 e.2 (pct e) g)).repos = g.repos
    rw [ih, import_one_language_repos]

theorem langFold_owns (fn : String) (pct : String × Int → ℚ) (ps : List (String × Int))
    (g : GraphDB) : (langFold fn pct ps g).owns = g.owns := by
  induction ps generalizing g with
  | nil => rfl
  | cons e ps ih =>
    show (langFold fn pct ps (import_one_language fn e.1 e.2 (pct e) g)).owns = g.owns
    rw [ih, import_one_language_owns]

theorem langFold_uses (fn : String) (pct : String × Int → ℚ) (ps : List (String × Int))
    (g : GraphDB) (h : (g.repos fn).isSome) :
    (langFold fn pct ps g).uses
      = applyWrites g.uses (ps.map (fun e => ((fn, e.1), UsesRel.mk e.2 (pct e)))) := by
  induction ps generalizing g with
  | nil => rfl
  | cons e ps ih =>
    obtain ⟨rp, hrp⟩ := Option.isSome_iff_exists.mp h
    have hstep : import_one_language fn e.1 e.2 (pct e) g
        = { g with
            langNodes := fun n => if e.1 = n then true else g.langNodes n
            uses := fun k => if (fn, e.1) = k then some ⟨e.2, pct e⟩ else g.uses k } := by
      unfold import_one_language
      rw [hrp]
    show (langFold fn pct ps (import_one_language fn e.1 e.2 (pct e) g)).uses = _
    rw [ih _ (by rw [import_one_language_repos, hrp]; rfl), hstep]
    rfl

theorem langFold_langNodes (fn : String) (pct : String × Int → ℚ) (ps : List (String × Int))
    (g : GraphDB) (h : (g.repos fn).isSome) :
    (langFold fn pct ps g).langNodes = applyTrue g.langNodes (ps.map Prod.fst) := by
  induction ps generalizing g with
  | nil => rfl
  | cons e ps ih =>
    obtain ⟨rp, hrp⟩ := Option.isSome_iff_exists.mp h
    have hstep : import_one_language fn e.1 e.2 (pct e) g
        = { g with
            langNodes := fun n => if e.1 = n then true else g.langNodes n
            uses := fun k => if (fn, e.1) = k then some ⟨e.2, pct e⟩ else g.uses k } := by
      unfold import_one_language
      rw [hrp]
    show (langFold fn pct ps (import_one_language fn e.1 e.2 (pct e) g)).langNodes = _
    rw [ih _ (by rw [import_one_language_repos, hrp]; rfl), hstep]
    rfl

theorem import_languages_eq_langFold (fn : String) (ls : List (String × Int)) (g : GraphDB) :
    import_languages fn ls g
      = if ls = [] then g else langFold fn (fun e => langPct ((ls.map Prod.snd).sum) e.2) ls g := rfl

theorem import_languages_users (fn : String) (ls : List (String × Int)) (g : GraphDB) :
    (import_languages fn ls g).users = g.users := by
  rw [import_languages_eq_langFold]
  by_cases h : ls = [] <;> simp [h, langFold_users]

theorem import_languages_repos (fn : String) (ls : List (String × Int)) (g : GraphDB) :
    (import_languages fn ls g).repos = g.repos := by
  rw [import_languages_eq_langFold]
  by_cases h : ls = [] <;> simp [h, langFold_repos]

theorem import_languages_owns (fn : String) (ls : List (String × Int)) (g : GraphDB) :
    (import_languages fn ls g).owns = g.owns := by
  rw [import_languages_eq_langFold]
  by_cases h : ls = [] <;> simp [h, langFold_owns]

theorem import_repository_users (r : RepoData) (login : String) (g : GraphDB) :
    (import_repository r login g).users = g.users := by
  unfold import_repository
  cases g.users login <;> rfl

theorem import_repository_of_user (r : RepoData) (login : String) (g : GraphDB)
    (h : (g.users login).isSome) :
    import_repository r login g
      = { g with
          repos := fun f => if r.full_name = f then some r.props else g.repos f
          owns := fun e => if (login, r.full_name) = e then true else g.owns e } := by
  obtain ⟨un, hun⟩ := Option.isSome_iff_exists.mp h
  unfold import_repository
  rw [hun]

theorem import_repo_step_users (login : String) (g : GraphDB) (r : RepoData) :
    (import_repo_step login g r).users = g.users := by
  unfold import_repo_step
  by_cases h : r.languages = [] <;>
    simp [h, import_languages_users, import_repository_users]

theorem import_repo_step_repos (login : String) (g : GraphDB) (r : RepoData)
    (h : (g.users login).isSome) :
    (import_repo_step login g r).repos
      = applyWrites g.repos [(r.full_name, r.props)] := by
  unfold import_repo_step
  by_cases hl : r.languages = [] <;>
    simp [hl, import_languages_repos, import_repository_of_user r login g h, applyWrites]

theorem import_repo_step_owns (login : String) (g : GraphDB) (r : RepoData)
    (h : (g.users login).isSome) :
    (import_repo_step login g r).owns
      = applyTrue g.owns [(login, r.full_name)] := by
  unfold import_repo_step
  by_cases hl : r.languages = [] <;>
    simp [hl, import_languages_owns, import_repository_of_user r login g h, applyTrue]

/-- The USES_LANGUAGE writes one repository's import issues (none when its
language map is empty; the percentage denominator is the repo's byte total). -/
def usesWrites (repo_full_name : String) (languages : List (String × Int)) :
    List ((String × String) × UsesRel) :=
  languages.map
    (fun e => ((repo_full_name, e.1), UsesRel.mk e.2 (langPct ((languages.map Prod.snd).sum) e.2)))

theorem import_languages_uses (fn : String) (ls : List (String × Int)) (g : GraphDB)
    (h : (g.repos fn).isSome) :
    (import_languages fn ls g).uses
      = applyWrites g.uses (if ls = [] then [] else usesWrites fn ls) := by
  rw [import_languages_eq_langFold]
  by_cases hl : ls = []
  · simp [hl, applyWrites]
  · simp only [hl, if_false]
    exact langFold_uses fn _ ls g h

theorem import_languages_langNodes (fn : String) (ls : List (String × Int)) (g : GraphDB)
    (h : (g.repos fn).isSome) :
    (import_languages fn ls g).langNodes
      = applyTrue g.langNodes (if ls = [] then [] else ls.map Prod.fst) := by
  rw [import_languages_eq_langFold]
  by_cases hl : ls = []
  · simp [hl, applyTrue]
  · simp only [hl, if_false]
    exact langFold_langNodes fn _ ls g h

theorem import_repo_step_uses (login : String) (g : GraphDB) (r : RepoData)
    (h : (g.users login).isSome) :
    (import_repo_step login g r).uses
      = applyWrites g.uses (if r.languages = [] then [] else usesWrites r.full_name r.languages) := by
  unfold import_repo_step
  have hrepo : ((import_repository r login g).repos r.full_name).isSome := by
    rw [import_repository_of_user r login g h]
    simp
  by_cases hl : r.languages = []
  · simp [hl, applyWrites, import_repository_of_user r login g h]
  · simp only [hl, if_false]
    rw [import_languages_uses _ _ _ hrepo, import_repository_of_user r login g h]
    simp [hl]

theorem import_repo_step_langNodes (login : String) (g : GraphDB) (r : RepoData)
    (h : (g.users login).isSome) :
    (import_repo_step login g r).langNodes
      = applyTrue g.langNodes (if r.languages = [] then [] else r.languages.map Prod.fst) := by
  unfold import_repo_step
  have hrepo : ((import_repository r login g).repos r.full_name).isSome := by
    rw [import_repository_of_user r login g h]
    simp
  by_cases hl : r.languages = []
  · simp [hl, applyTrue, import_repository_of_user r login g h]
  · simp only [hl, if_false]
    rw [import_languages_langNodes _ _ _ hrepo, import_repository_of_user r login g h]
    simp [hl]

/-- The Repo-node writes the repository loop issues, in program order. -/
def repoWrites (rs : List RepoData) : List (String × RepoProps) :=
  rs.map (fun r => (r.full_name, r.props))

/-- The OWNS edges the repository loop merges. -/
def ownsKeys (login : String) (rs : List RepoData) : List (String × String) :=
  rs.map (fun r => (login, r.full_name))

/-- The Language nodes the repository loop merges. -/
def langNodeKeys (rs : List RepoData) : List String :=
  rs.flatMap (fun r => if r.languages = [] then [] else r.languages.map Prod.fst)

/-- The USES_LANGUAGE writes the repository loop issues, in program order. -/
def pipelineUsesWrites (rs : List RepoData) : List ((String × String) × UsesRel) :=
  rs.flatMap (fun r => if r.languages = [] then [] else usesWrites r.full_name r.languages)

theorem repoFold_users (login : String) (rs : List RepoData) (g : GraphDB) :
    (rs.foldl (import_repo_step login) g).users = g.users := by
  induction rs generalizing g with
  | nil => rfl
  | cons r rs ih =>
    show (rs.foldl (import_repo_step login) (import_repo_step login g r)).users = _
    rw [ih, import_repo_step_users]

theorem repoFold_repos (login : String) (rs : List RepoData) (g : GraphDB)
    (h : (g.users login).isSome) :
    (rs.foldl (import_repo_step login) g).repos = applyWrites g.repos (repoWrites rs) := by
  induction rs generalizing g with
  | nil => rfl
  | cons r rs ih =>
    have h1 : ((import_repo_step login g r).users login).isSome := by
      rw [import_repo_step_users]; exact h
    show (rs.foldl (import_repo_step login) (import_repo_step login g r)).repos = _
    rw [ih _ h1, import_repo_step_repos login g r h]
    rfl

theorem repoFold_owns (login : String) (rs : List RepoData) (g : GraphDB)
    (h : (g.users login).isSome) :
    (rs.foldl (import_repo_step login) g).owns = applyTrue g.owns (ownsKeys login rs) := by
  induction rs generalizing g with
  | nil => rfl
  | cons r rs ih =>
    have h1 : ((import_repo_step login g r).users login).isSome := by
      rw [import_repo_step_users]; exact h
    show (rs.foldl (import_repo_step login) (import_repo_step login g r)).owns = _
    rw [ih _ h1, import_repo_step_owns login g r h]
    rfl

theorem repoFold_langNodes (login : String) (rs : List RepoData) (g : GraphDB)
    (h : (g.users login).isSome) :
    (rs.foldl (import_repo_step login) g).langNodes
      = applyTrue g.langNodes (langNodeKeys rs) := by
  induction rs generalizing g with
  | nil => rfl
  | cons r rs ih =>
    have h1 : ((import_repo_step login g r).users login).isSome := by
      rw [import_repo_step_users]; exact h
    show (rs.foldl (import_repo_step login) (import_repo_step login g r)).langNodes = _
    rw [ih _ h1, import_repo_step_langNodes login g r h]
    simp only [langNodeKeys, List.flatMap_cons]
    conv_rhs => rw [applyTrue, List.foldl_append]
    rfl

theorem repoFold_uses (login : String) (rs : List RepoData) (g : GraphDB)
    (h : (g.users login).isSome) :
    (rs.foldl (import_repo_step login) g).uses
      = applyWrites g.uses (pipelineUsesWrites rs) := by
  induction rs generalizing g with
  | nil => rfl
  | cons r rs ih =>
    have h1 : ((import_repo_step login g r).users login).isSome := by
      rw [import_repo_step_users]; exact h
    show (rs.foldl (import_repo_step login) (import_repo_step login g r)).uses = _
    rw [ih _ h1, import_repo_step_uses login g r h]
    simp only [pipelineUsesWrites, List.flatMap_cons]
    conv_rhs => rw [applyWrites, List.foldl_append]
    rfl

theorem import_user_users_self (t : Int) (u : UserData) (g : GraphDB) :
    ((import_user t u g).users u.login).isSome := by
  simp [import_user]

theorem import_complete_users (t : Int) (u : UserData) (rs : List RepoData) (g : GraphDB) :
    (import_complete_user_data t u rs g).users
      = fun l => if u.login = l then some ⟨u.props, t⟩ else g.users l := by
  unfold import_complete_user_data
  rw [repoFold_users]
  rfl

theorem import_complete_repos (t : Int) (u : UserData) (rs : List RepoData) (g : GraphDB) :
    (import_complete_user_data t u rs g).repos = applyWrites g.repos (repoWrites rs) := by
  unfold import_complete_user_data
  rw [repoFold_repos _ _ _ (import_user_users_self t u g)]
  rfl

theorem import_complete_owns (t : Int) (u : UserData) (rs : List RepoData) (g : GraphDB) :
    (import_complete_user_data t u rs g).owns = applyTrue g.owns (ownsKeys u.login rs) := by
  unfold import_complete_user_data
  rw [repoFold_owns _ _ _ (import_user_users_self t u g)]
  rfl

theorem import_complete_langNodes (t : Int) (u : UserData) (rs : List RepoData) (g : GraphDB) :
    (import_complete_user_data t u rs g).langNodes
      = applyTrue g.langNodes (langNodeKeys rs) := by
  unfold import_complete_user_data
  rw [repoFold_langNodes _ _ _ (import_user_users_self t u g)]
  rfl

theorem import_complete_uses (t : Int) (u : UserData) (rs : List RepoData) (g : GraphDB) :
    (import_complete_user_data t u rs g).uses
      = applyWrites g.uses (pipelineUsesWrites rs) := by
  unfold import_complete_user_data
  rw [repoFold_uses _ _ _ (import_user_users_self t u g)]
  rfl

theorem applyWrites_absorb [DecidableEq κ] (f : κ → Option α) (ws : List (κ × α)) :
    applyWrites (applyWrites f ws) ws = applyWrites f ws := by
  funext k
  simp only [applyWrites_eval]
  cases h : lastWrite ws k <;> simp [h]

theorem applyTrue_absorb [DecidableEq κ] (f : κ → Bool) (ks : List κ) :
    applyTrue (applyTrue f ks) ks = applyTrue f ks := by
  funext k
  simp only [applyTrue_eval]
  by_cases h : k ∈ ks <;> simp [h]

/-- Running the pipeline on top of a previous run with the same data gives the
same graph as running it once on the original graph: every statement is a
keyed overwrite whose key and value depend only on the input data (and, for
`last_analyzed`, the clock). -/
theorem import_complete_absorb (t1 t2 : Int) (u : UserData) (rs : List RepoData) (g : GraphDB) :
    import_complete_user_data t2 u rs (import_complete_user_data t1 u rs g)
      = import_complete_user_data t2 u rs g := by
  apply GraphDB.ext
  · funext l
    simp only [import_complete_users]
    by_cases h : u.login = l <;> simp [h]
  · rw [import_complete_repos, import_complete_repos, import_complete_repos, applyWrites_absorb]
  · rw [import_complete_owns, import_complete_owns, import_complete_owns, applyTrue_absorb]
  · rw [import_complete_langNodes, import_complete_langNodes, import_complete_langNodes,
      applyTrue_absorb]
  · rw [import_complete_uses, import_complete_uses, import_complete_uses, applyWrites_absorb]

/-- Forget the `last_analyzed` timestamp on every User node (the one
attribute the spec exempts from the idempotence property). -/
def eraseLastAnalyzed (g : GraphDB) : GraphDB :=
  { g with users := fun l => (g.users l).map (fun un => ⟨un.props, 0⟩) }

/-- C2: running the full import pipeline (user merge, repo merges, language
merges) twice for the same login with unchanged source data is idempotent:
after the second run the graph snapshot is identical to the one after the
first run - same nodes, edges and attribute values - except for the
`last_analyzed` timestamp on the User node. -/
theorem c2_reimport_is_idempotent (t1 t2 : Int) (u : UserData) (rs : List RepoData)
    (g : GraphDB) :
    eraseLastAnalyzed (import_complete_user_data t2 u rs (import_complete_user_data t1 u rs g))
      = eraseLastAnalyzed (import_complete_user_data t1 u rs g) := by
  rw [import_complete_absorb]
  apply GraphDB.ext
  · funext l
    show ((import_complete_user_data t2 u rs g).users l).map _
      = ((import_complete_user_data t1 u rs g).users l).map _
    simp only [import_complete_users]
    by_cases h : u.login = l <;> simp [h]
  · show (import_complete_user_data t2 u rs g).repos = (import_complete_user_data t1 u rs g).repos
    rw [import_complete_repos, import_complete_repos]
  · show (import_complete_user_data t2 u rs g).owns = (import_complete_user_data t1 u rs g).owns
    rw [import_complete_owns, import_complete_owns]
  · show (import_complete_user_data t2 u rs g).langNodes
      = (import_complete_user_data t1 u rs g).langNodes
    rw [import_complete_langNodes, import_complete_langNodes]
  · show (import_complete_user_data t2 u rs g).uses = (import_complete_user_data t1 u rs g).uses
    rw [import_complete_uses, import_complete_uses]

theorem usesWrites_keys (fn : String) (ls : List (String × Int)) :
    (usesWrites fn ls).map Prod.fst = ls.map (fun e => (fn, e.1)) := by
  simp [usesWrites]

theorem usesWrites_keys_nodup (fn : String) (ls : List (String × Int))
    (h : (ls.map Prod.fst).Nodup) : ((usesWrites fn ls).map Prod.fst).Nodup := by
  rw [usesWrites_keys]
  have heq : ls.map (fun e => (fn, e.1)) = (ls.map Prod.fst).map (fun s => (fn, s)) := by
    rw [List.map_map]
    rfl
  rw [heq]
  exact h.map (Prod.mk.inj_left fn)

theorem import_languages_stored_edge (fn : String) (ls : List (String × Int)) (g : GraphDB)
    (hrepo : (g.repos fn).isSome) (hnd : (ls.map Prod.fst).Nodup)
    (e : String × Int) (he : e ∈ ls) :
    (import_languages fn ls g).uses (fn, e.1)
      = some ⟨e.2, langPct ((ls.map Prod.snd).sum) e.2⟩ := by
  have hne : ls ≠ [] := by
    intro h
    rw [h] at he
    cases he
  rw [import_languages_uses fn ls g hrepo]
  simp only [hne, if_false]
  rw [applyWrites_eval]
  have hmem : ((fn, e.1), UsesRel.mk e.2 (langPct ((ls.map Prod.snd).sum) e.2)) ∈ usesWrites fn ls :=
    List.mem_map_of_mem _ he
  rw [lastWrite_of_nodup _ _ _ (usesWrites_keys_nodup fn ls hnd) hmem]

theorem sum_map_langPct (T : Int) (hT : 0 < T) (ls : List (String × Int)) :
    (ls.map (fun e => langPct T e.2)).sum = (((ls.map Prod.snd).sum : Int) : ℚ) / (T : ℚ) * 100 := by
  induction ls with
  | nil => simp
  | cons e ls ih =>
    rw [List.map_cons, List.sum_cons, ih, List.map_cons, List.sum_cons]
    rw [langPct, if_pos hT]
    push_cast
    ring

/-- C1 (amended): whenever a repository is imported with a language-byte map
whose byte total is positive (so in particular the map is non-empty), the
percentage values written on that repo's USES_LANGUAGE edges sum to exactly
100 (hence to 100 within any tolerance); an empty map writes no edges and
leaves the graph unchanged, so the sum over its edges is 0.  The positivity
proviso is forced: line 117 explicitly assigns percentage 0 to every entry
when the total is not positive. -/
theorem c1_percentages_sum_to_100 (g : GraphDB) (fn : String)
    (languages : List (String × Int))
    (hrepo : (g.repos fn).isSome)
    (hnd : (languages.map Prod.fst).Nodup)
    (hpos : 0 < (languages.map Prod.snd).sum) :
    (languages.map (fun e =>
        (((import_languages fn languages g).uses (fn, e.1)).map UsesRel.percentage).getD 0)).sum
      = 100
    ∧ import_languages fn [] g = g := by
  refine ⟨?_, by simp [import_languages]⟩
  have hcong : languages.map (fun e =>
      (((import_languages fn languages g).uses (fn, e.1)).map UsesRel.percentage).getD 0)
      = languages.map (fun e => langPct ((languages.map Prod.snd).sum) e.2) := by
    apply List.map_congr_left
    intro e he
    rw [import_languages_stored_edge fn languages g hrepo hnd e he]
    rfl
  rw [hcong, sum_map_langPct _ hpos]
  rw [div_self (by exact_mod_cast hpos.ne')]
  norm_num

/-- The empty graph. -/
def emptyDB : GraphDB :=
  ⟨fun _ => none, fun _ => none, fun _ => false, fun _ => false, fun _ => none⟩

/-- A concrete repo attribute record for witnesses and counterexamples. -/
def sampleRepoProps : RepoProps :=
  ⟨"r", none, some "Python", 0, 0, 0, 0, false, false, "", "", none, "", "", []⟩

/-- A graph holding the single Repo node "o/r". -/
def oneRepoDB : GraphDB :=
  { emptyDB with repos := fun f => if f = "o/r" then some sampleRepoProps else none }

/-- C1 counterexample: the claim as stated fails on the non-empty map
`{"Python": 0}` - the code assigns percentage 0 to the lone edge because the
byte total is not positive, so the percentages sum to 0, not to 100 ± 1e-6. -/
theorem c1_counterexample :
    ((([("Python", (0 : Int))]).map (fun e =>
        (((import_languages "o/r" [("Python", 0)] oneRepoDB).uses ("o/r", e.1)).map
          UsesRel.percentage).getD 0)).sum = 0)
    ∧ ¬(|(([("Python", (0 : Int))]).map (fun e =>
        (((import_languages "o/r" [("Python", 0)] oneRepoDB).uses ("o/r", e.1)).map
          UsesRel.percentage).getD 0)).sum - 100| ≤ 1 / 1000000) := by
  have hedge : (import_languages "o/r" [("Python", (0 : Int))] oneRepoDB).uses ("o/r", "Python")
      = some ⟨0, 0⟩ := by
    simp [import_languages, import_one_language, oneRepoDB, emptyDB, langPct]
  constructor
  · simp [hedge]
  · rw [show ((([("Python", (0 : Int))]).map (fun e =>
        (((import_languages "o/r" [("Python", 0)] oneRepoDB).uses ("o/r", e.1)).map
          UsesRel.percentage).getD 0)).sum : ℚ) = 0 by simp [hedge]]
    rw [abs_le]
    push_neg
    intro h
    exact absurd h (by norm_num)

/-- Witness for C1 at the spec's own example map
`{Python: 800, JavaScript: 200}` on a graph holding the repo "o/r". -/
theorem c1_percentages_sum_to_100_witness :
    ((([("Python", (800 : Int)), ("JavaScript", 200)]).map (fun e =>
        (((import_languages "o/r" [("Python", 800), ("JavaScript", 200)] oneRepoDB).uses
          ("o/r", e.1)).map UsesRel.percentage).getD 0)).sum = 100)
    ∧ import_languages "o/r" [] oneRepoDB = oneRepoDB :=
  c1_percentages_sum_to_100 oneRepoDB "o/r" [("Python", 800), ("JavaScript", 200)]
    (by decide) (by decide) (by decide)

/-- A repository dict before `fetch_user_data` adds the `languages` key
(fetch_github.py lines 85-103). -/
structure PreRepo where
  full_name : String
  props : RepoProps
deriving DecidableEq, Repr

/-- `get_repository_languages` (fetch_github.py lines 113-121): one request
to the per-repo languages endpoint; any failure is swallowed and yields an
empty dict.  `server` stands for the external API's response to the
languages request for a given repo name. -/
def get_repository_languages (server : String → Except String (List (String × Int)))
    (repo_name : String) : List (String × Int) :=
  match server repo_name with
  | .ok ls => ls
  | .error _ => []

/-- The body of the language-assignment loop of `fetch_user_data`
(fetch_github.py lines 138-147): a non-fork repo gets the response of one
language request, a fork gets an empty language map. -/
def assign_repo_languages (server : String → Except String (List (String × Int)))
    (r : PreRepo) : RepoData :=
  if r.props.is_fork = false then
    ⟨r.full_name, r.props, get_repository_languages server r.props.name⟩
  else ⟨r.full_name, r.props, []⟩

/-- The language-assignment loop of `fetch_user_data` (lines 138-147),
instrumented with the list of repo names for which a language request goes
out on the network: only the non-fork branch calls
`get_repository_languages`. -/
def fetch_assign_languages (server : String → Except String (List (String × Int)))
    (repos : List PreRepo) : List RepoData × List String :=
  repos.foldl
    (fun acc r =>
      (acc.1 ++ [assign_repo_languages server r],
       acc.2 ++ if r.props.is_fork = false then [r.props.name] else []))
    ([], [])

theorem fetch_assign_aux (server : String → Except String (List (String × Int)))
    (repos : List PreRepo) (acc : List RepoData × List String) :
    repos.foldl
      (fun acc r =>
        (acc.1 ++ [assign_repo_languages server r],
         acc.2 ++ if r.props.is_fork = false then [r.props.name] else []))
      acc
      = (acc.1 ++ repos.map (assign_repo_languages server),
         acc.2 ++ (repos.filter (fun r => !r.props.is_fork)).map (fun r => r.props.name)) := by
  induction repos generalizing acc with
  | nil => simp
  | cons r rs ih =>
    rw [List.foldl_cons, ih]
    cases hf : r.props.is_fork <;> simp [hf, List.filter_cons]

theorem fetch_assign_languages_spec (server : String → Except String (List (String × Int)))
    (repos : List PreRepo) :
    fetch_assign_languages server repos
      = (repos.map (assign_repo_languages server),
         (repos.filter (fun r => !r.props.is_fork)).map (fun r => r.props.name)) := by
  unfold fetch_assign_languages
  rw [fetch_assign_aux]
  simp

theorem assign_repo_languages_full_name (server : String → Except String (List (String × Int)))
    (r : PreRepo) : (assign_repo_languages server r).full_name = r.full_name := by
  unfold assign_repo_languages
  cases hf : r.props.is_fork <;> simp [hf]

/-- C5: a repository marked as a fork is assigned an empty language map by
the fetch pipeline, no per-repo language request goes out for it, and so
the importer writes no USES_LANGUAGE edge and no Language node for
that repo - `import_languages` on the empty map is the identity, and under
distinct full_names the full pipeline leaves every USES_LANGUAGE slot of the
fork's repo untouched. -/
theorem c5_forks_skip_languages (server : String → Except String (List (String × Int)))
    (repos : List PreRepo) (r : PreRepo) (t : Int) (u : UserData) (g : GraphDB) (lang : String)
    (hr : r ∈ repos) (hf : r.props.is_fork = true)
    (hnd : (repos.map PreRepo.full_name).Nodup) :
    (assign_repo_languages server r).languages = []
    ∧ (fetch_assign_languages server repos).2
        = (repos.filter (fun x => !x.props.is_fork)).map (fun x => x.props.name)
    ∧ (import_complete_user_data t u (fetch_assign_languages server repos).1 g).uses
        (r.full_name, lang) = g.uses (r.full_name, lang)
    ∧ import_languages r.full_name [] g = g := by
  refine ⟨by simp [assign_repo_languages, hf], by rw [fetch_assign_languages_spec], ?_,
    by simp [import_languages]⟩
  rw [import_complete_uses, applyWrites_eval]
  have hnone : lastWrite (pipelineUsesWrites (fetch_assign_languages server repos).1)
      (r.full_name, lang) = none := by
    apply lastWrite_eq_none
    intro w hw hkey
    rw [fetch_assign_languages_spec] at hw
    simp only [pipelineUsesWrites, List.mem_flatMap, List.mem_map] at hw
    obtain ⟨x, ⟨y, hy, hyx⟩, hwx⟩ := hw
    by_cases hxl : x.languages = []
    · rw [hxl] at hwx
      cases hwx
    · rw [if_neg hxl] at hwx
      have hx1 : w.1.1 = x.full_name := by
        simp only [usesWrites, List.mem_map] at hwx
        obtain ⟨e, he, hew⟩ := hwx
        rw [← hew]
      have hyr : y = r := by
        apply List.inj_on_of_nodup_map hnd hy hr
        rw [← hyx] at hx1
        rw [← assign_repo_languages_full_name server y, ← hx1, hkey]
      rw [hyr] at hyx
      rw [← hyx] at hxl
      exact hxl (by simp [assign_repo_languages, hf])
  rw [hnone]

/-- A concrete forked repository. -/
def forkPreRepo : PreRepo :=
  ⟨"u/fork", ⟨"fork", none, none, 0, 0, 0, 0, true, false, "", "", none, "", "", []⟩⟩

/-- A concrete original (non-fork) repository. -/
def origPreRepo : PreRepo :=
  ⟨"u/orig", ⟨"orig", none, some "Python", 0, 0, 0, 0, false, false, "", "", none, "", "", []⟩⟩

/-- A concrete language server always answering the spec's example map. -/
def sampleServer : String → Except String (List (String × Int)) :=
  fun _ => .ok [("Python", 800), ("JavaScript", 200)]

/-- A concrete user record. -/
def sampleUser : UserData :=
  ⟨"alice", ⟨none, none, none, none, none, none, 2, 0, 0, "", "", ""⟩⟩

/-- Witness for C5 at a concrete two-repo listing: one fork, one original. -/
theorem c5_forks_skip_languages_witness :
    (assign_repo_languages sampleServer forkPreRepo).languages = []
    ∧ (fetch_assign_languages sampleServer [forkPreRepo, origPreRepo]).2
        = (([forkPreRepo, origPreRepo]).filter (fun x => !x.props.is_fork)).map
            (fun x => x.props.name)
    ∧ (import_complete_user_data 0 sampleUser
          (fetch_assign_languages sampleServer [forkPreRepo, origPreRepo]).1 emptyDB).uses
        (forkPreRepo.full_name, "Python") = emptyDB.uses (forkPreRepo.full_name, "Python")
    ∧ import_languages forkPreRepo.full_name [] emptyDB = emptyDB :=
  c5_forks_skip_languages sampleServer [forkPreRepo, origPreRepo] forkPreRepo 0 sampleUser
    emptyDB "Python" (List.mem_cons_self _ _) (by rfl) (by decide)

/-- One language row of the `get_user_stats` query: the map
`{language: l.name, percentage: rel.percentage, bytes: rel.bytes}` collected
at neo4j_import.py lines 181-185.  Fields are null (`none`) when the
OPTIONAL MATCH finds no USES_LANGUAGE edge for the row. -/
structure StatsLangRow where
  language : Option String
  percentage : Option ℚ
  bytes : Option Int
deriving DecidableEq, Repr

/-- One repository row of the `get_user_stats` query: the map collected at
lines 171-180; every field is null when the user owns no repos. -/
structure StatsRepoRow where
  name : Option String
  full_name : Option String
  description : Option String
  stars : Option Int
  forks : Option Int
  language : Option String
  is_fork : Option Bool
  topics : Option (List String)
deriving DecidableEq, Repr

/-- A USES_LANGUAGE edge of one repo as the stats query reads it back. -/
structure StatsEdge where
  lang : String
  bytes : Int
  percentage : ℚ
deriving DecidableEq, Repr

/-- One repo owned by the queried user together with its language edges: the
graph neighbourhood traversed by the MATCH / OPTIONAL MATCH chain of
`get_user_stats` (lines 161-163). -/
structure StatsRepoInput where
  name : String
  full_name : String
  description : Option String
  stars : Int
  forks : Int
  language : Option String
  is_fork : Bool
  topics : List String
  edges : List StatsEdge
deriving DecidableEq, Repr

/-- The projection of a Repo node into the collected repository map. -/
def statsRepoRowOf (r : StatsRepoInput) : StatsRepoRow :=
  ⟨some r.name, some r.full_name, r.description, some r.stars, some r.forks,
   r.language, some r.is_fork, some r.topics⟩

/-- The all-null language row produced when the OPTIONAL MATCH on
USES_LANGUAGE finds nothing. -/
def nullLangRow : StatsLangRow := ⟨none, none, none⟩

/-- The language rows one repo contributes: one per edge, or a single null
row when it has none. -/
def langRowsOf (r : StatsRepoInput) : List StatsLangRow :=
  if r.edges = [] then [nullLangRow]
  else r.edges.map (fun e => ⟨some e.lang, some e.percentage, some e.bytes⟩)

/-- The rows the Cypher query of `get_user_stats` produces: the cartesian
unwinding of the OPTIONAL MATCH chain, with a single all-null row when the
user owns no repos. -/
def statsRows (owned : List StatsRepoInput) : List (StatsRepoRow × StatsLangRow) :=
  if owned = [] then [(⟨none, none, none, none, none, none, none, none⟩, nullLangRow)]
  else owned.flatMap (fun r => (langRowsOf r).map (fun lr => (statsRepoRowOf r, lr)))

/-- `collect(DISTINCT ...)`: the distinct values in first-appearance order. -/
def distinctCollect [DecidableEq α] : List α → List α
  | [] => []
  | a :: l => a :: (distinctCollect l).filter (fun b => decide (b ≠ a))

/-- The per-language aggregate dict entry built by `get_user_stats`
(lines 202-206). -/
structure LangStats where
  total_bytes : Int
  repo_count : Nat
  avg_percentage : ℚ
deriving DecidableEq, Repr

/-- Association-list lookup, standing for Python dict access. -/
def alookup (k : String) : List (String × α) → Option α
  | [] => none
  | p :: ps => if p.1 = k then some p.2 else alookup k ps

/-- In-place update of the value stored at a key, when present. -/
def aupdate (k : String) (f : α → α) : List (String × α) → List (String × α)
  | [] => []
  | p :: ps => if p.1 = k then (p.1, f p.2) :: ps else p :: aupdate k f ps

/-- Python truthiness of `lang['language']` (`if lang['language']`): a
non-null, non-empty string. -/
def truthyLang (t : StatsLangRow) : Bool :=
  match t.language with
  | some s => decide (s ≠ "")
  | none => false

/-- Python truthiness of `lang.get('percentage')`: a non-null, non-zero
number. -/
def truthyPct (t : StatsLangRow) : Bool :=
  match t.percentage with
  | some p => decide (p ≠ 0)
  | none => false

/-- `lang['language']` read as a string (total on rows passing the
truthiness filter, where the field is a non-empty string). -/
def langNameOf (t : StatsLangRow) : String := t.language.getD ""

/-- The first aggregation loop (lines 199-209): initialize a missing entry,
then accumulate `total_bytes` and `repo_count`. -/
def statsLoop1 : List StatsLangRow → List (String × LangStats) → List (String × LangStats)
  | [], m => m
  | t :: ts, m =>
    let name := langNameOf t
    let m1 := if (alookup name m).isSome then m else m ++ [(name, ⟨0, 0, 0⟩)]
    let m2 := aupdate name
      (fun s => ⟨s.total_bytes + t.bytes.getD 0, s.repo_count + 1, s.avg_percentage⟩) m1
    statsLoop1 ts m2

/-- The second aggregation loop (lines 211-219): for every entry, gather the
truthy percentages of that language's rows and overwrite `avg_percentage`
with their mean when there are any. -/
def statsLoop2 (languages : List StatsLangRow) (m : List (String × LangStats)) :
    List (String × LangStats) :=
  m.map (fun p =>
    (p.1,
     if 0 < p.2.repo_count then
       let ps := languages.filterMap
         (fun t => if t.language = some p.1 ∧ truthyPct t = true then t.percentage else none)
       if ps = [] then p.2 else ⟨p.2.total_bytes, p.2.repo_count, ps.sum / (ps.length : ℚ)⟩
     else p.2))

/-- The record `get_user_stats` returns (lines 221-228). -/
structure UserStats where
  username : String
  name : Option String
  total_repos_github : Int
  repos_analyzed : Nat
  repositories : List StatsRepoRow
  language_stats : List (String × LangStats)
deriving DecidableEq, Repr

/-- The User-node fields the stats query reads. -/
structure StatsUserInput where
  login : String
  name : Option String
  public_repos : Int
deriving DecidableEq, Repr

/-- `get_user_stats` (neo4j_import.py lines 158-228) evaluated on the queried
user's graph neighbourhood: `user` is `none` when no User node matches (the
function returns None), `owned` lists the OWNS-linked repos with their
language edges.  `collect(DISTINCT ...)` becomes `distinctCollect`,
`count(DISTINCT r)` counts distinct non-null repos through their unique
`full_name` key. -/
def get_user_stats (user : Option StatsUserInput) (owned : List StatsRepoInput) :
    Option UserStats :=
  match user with
  | none => none
  | some u =>
    let rows := statsRows owned
    let collectedRepos := distinctCollect (rows.map (fun row => row.1))
    let collectedLangs := distinctCollect (rows.map (fun row => row.2))
    let languages := collectedLangs.filter truthyLang
    some
      { username := u.login
        name := u.name
        total_repos_github := u.public_repos
        repos_analyzed := (distinctCollect (rows.filterMap (fun row => row.1.full_name))).length
        repositories := collectedRepos.filter
          (fun p => match p.name with | some s => decide (s ≠ "") | none => false)
        language_stats := statsLoop2 languages (statsLoop1 languages []) }

/-- C10: for a login whose User node exists but owns no repos,
`get_user_stats` returns a non-null record with `repos_analyzed = 0`, an
empty repository list and an empty language-stats map: the all-null
placeholder rows of the OPTIONAL MATCHes are filtered out, not returned. -/
theorem c10_stats_user_without_repos (u : StatsUserInput) :
    get_user_stats (some u) []
      = some ⟨u.login, u.name, u.public_repos, 0, [], []⟩ := rfl

theorem alookup_append_single (k n : String) (v : α) (m : List (String × α)) :
    alookup k (m ++ [(n, v)])
      = match alookup k m with
        | some w => some w
        | none => if n = k then some v else none := by
  induction m with
  | nil => simp [alookup]
  | cons p ps ih => by_cases h : p.1 = k <;> simp [alookup, h, ih]

theorem alookup_aupdate (k n : String) (f : α → α) (m : List (String × α)) :
    alookup k (aupdate n f m)
      = if n = k then (alookup k m).map f else alookup k m := by
  induction m with
  | nil => simp [alookup, aupdate]
  | cons p ps ih =>
    by_cases hp : p.1 = n
    · by_cases hk : n = k
      · simp [aupdate, alookup, hp, hk]
      · have hpk : ¬p.1 = k := by rw [hp]; exact hk
        simp [aupdate, alookup, hp, hk, hpk]
    · by_cases hpk : p.1 = k
      · have hk : ¬n = k := by
          intro h
          exact hp (by rw [hpk, h])
        have hk2 : ¬k = n := fun h => hk h.symm
        simp [aupdate, alookup, hp, hpk, hk, hk2, ih]
      · simp [aupdate, alookup, hp, hpk, ih]

/-- The rows of `ts` whose language name reads as `k` - the group the first
aggregation loop accumulates under key `k`. -/
def loop1Group (k : String) (ts : List StatsLangRow) : List StatsLangRow :=
  ts.filter (fun t => decide (langNameOf t = k))

/-- The byte total the first aggregation loop accumulates under key `k`. -/
def loop1Bytes (k : String) (ts : List StatsLangRow) : Int :=
  ((loop1Group k ts).map (fun t => t.bytes.getD 0)).sum

theorem loop1Group_cons (k : String) (t : StatsLangRow) (ts : List StatsLangRow) :
    loop1Group k (t :: ts)
      = if langNameOf t = k then t :: loop1Group k ts else loop1Group k ts := by
  by_cases h : langNameOf t = k <;> simp [loop1Group, List.filter_cons, h]

theorem statsLoop1_step_lookup (t : StatsLangRow) (m : List (String × LangStats)) (k : String) :
    alookup k
      (aupdate (langNameOf t)
        (fun s => ⟨s.total_bytes + t.bytes.getD 0, s.repo_count + 1, s.avg_percentage⟩)
        (if (alookup (langNameOf t) m).isSome then m else m ++ [(langNameOf t, ⟨0, 0, 0⟩)]))
      = if langNameOf t = k then
          some (match alookup k m with
            | some s => ⟨s.total_bytes + t.bytes.getD 0, s.repo_count + 1, s.avg_percentage⟩
            | none => ⟨t.bytes.getD 0, 1, 0⟩)
        else alookup k m := by
  rw [alookup_aupdate]
  by_cases hname : langNameOf t = k
  · rw [if_pos hname, if_pos hname]
    cases halm : alookup k m with
    | some s =>
      have hs : (alookup (langNameOf t) m).isSome = true := by rw [hname, halm]; rfl
      rw [if_pos hs, halm]
      rfl
    | none =>
      have hs : ¬((alookup (langNameOf t) m).isSome = true) := by
        rw [hname, halm]
        simp
      rw [if_neg hs, alookup_append_single, halm]
      rw [if_pos hname]
      simp
  · rw [if_neg hname, if_neg hname]
    by_cases hs : (alookup (langNameOf t) m).isSome = true
    · rw [if_pos hs]
    · rw [if_neg hs, alookup_append_single]
      cases halm : alookup k m with
      | some s => rfl
      | none => rw [if_neg hname]

theorem statsLoop1_lookup (ts : List StatsLangRow) (m : List (String × LangStats)) (k : String) :
    alookup k (statsLoop1 ts m)
      = match alookup k m with
        | some s =>
          if loop1Group k ts = [] then some s
          else some ⟨s.total_bytes + loop1Bytes k ts,
            s.repo_count + (loop1Group k ts).length, s.avg_percentage⟩
        | none =>
          if loop1Group k ts = [] then none
          else some ⟨loop1Bytes k ts, (loop1Group k ts).length, 0⟩ := by
  induction ts generalizing m with
  | nil => cases h : alookup k m <;> simp [statsLoop1, loop1Group, h]
  | cons t ts ih =>
    show alookup k (statsLoop1 ts _) = _
    rw [ih, statsLoop1_step_lookup]
    by_cases hname : langNameOf t = k
    · rw [if_pos hname]
      cases halm : alookup k m with
      | some s =>
        by_cases hG : loop1Group k ts = [] <;>
          simp [hG, loop1Group_cons, hname, loop1Bytes, LangStats.mk.injEq] <;>
          first
          | rfl
          | omega
          | exact ⟨by omega, by omega, rfl⟩
          | exact ⟨by omega, by omega⟩
          | exact ⟨by omega, rfl⟩
      | none =>
        by_cases hG : loop1Group k ts = [] <;>
          simp [hG, loop1Group_cons, hname, loop1Bytes, LangStats.mk.injEq] <;>
          first
          | rfl
          | omega
          | exact ⟨by omega, by omega, rfl⟩
          | exact ⟨by omega, by omega⟩
          | exact ⟨by omega, rfl⟩
    · rw [if_neg hname]
      cases halm : alookup k m <;>
        simp [halm, loop1Group_cons, hname, loop1Bytes]

/-- The avg-percentage rewrite the second loop applies to one entry. -/
def avgF (tl : List StatsLangRow) (k : String) (s : LangStats) : LangStats :=
  if 0 < s.repo_count then
    let ps := tl.filterMap
      (fun t => if t.language = some k ∧ truthyPct t = true then t.percentage else none)
    if ps = [] then s else ⟨s.total_bytes, s.repo_count, ps.sum / (ps.length : ℚ)⟩
  else s

theorem statsLoop2_eq (tl : List StatsLangRow) (m : List (String × LangStats)) :
    statsLoop2 tl m = m.map (fun p => (p.1, avgF tl p.1 p.2)) := rfl

theorem alookup_map_kv (k : String) (F : String → α → β) (m : List (String × α)) :
    alookup k (m.map (fun p => (p.1, F p.1 p.2))) = (alookup k m).map (F k) := by
  induction m with
  | nil => rfl
  | cons p ps ih => by_cases h : p.1 = k <;> simp [alookup, h, ih]

theorem stats_lookup_spec (tl : List StatsLangRow) (L : String) :
    alookup L (statsLoop2 tl (statsLoop1 tl []))
      = (if loop1Group L tl = [] then none
         else some (avgF tl L ⟨loop1Bytes L tl, (loop1Group L tl).length, 0⟩)) := by
  rw [statsLoop2_eq, alookup_map_kv, statsLoop1_lookup]
  have h0 : alookup L ([] : List (String × LangStats)) = none := rfl
  rw [h0]
  by_cases hG : loop1Group L tl = [] <;> simp [hG]

theorem filterMap_cond_split (tl : List StatsLangRow) (L : String) :
    tl.filterMap
      (fun t => if t.language = some L ∧ truthyPct t = true then t.percentage else none)
      = (tl.filter (fun t => decide (t.language = some L))).filterMap
          (fun t => if truthyPct t = true then t.percentage else none) := by
  induction tl with
  | nil => rfl
  | cons t ts ih =>
    by_cases hL : t.language = some L <;> by_cases hp : truthyPct t = true <;>
      simp [List.filterMap_cons, List.filter_cons, hL, hp, ih]

theorem stats_lookup_description (tl : List StatsLangRow) (L : String)
    (htl : ∀ t ∈ tl, truthyLang t = true) :
    alookup L (statsLoop2 tl (statsLoop1 tl []))
      = (let g := tl.filter (fun t => decide (t.language = some L))
         if g = [] then none
         else some ⟨(g.map (fun t => t.bytes.getD 0)).sum, g.length,
           (let ps := g.filterMap (fun t => if truthyPct t = true then t.percentage else none)
            if ps = [] then 0 else ps.sum / (ps.length : ℚ))⟩) := by
  rw [stats_lookup_spec]
  have hg : loop1Group L tl = tl.filter (fun t => decide (t.language = some L)) := by
    apply List.filter_congr
    intro t ht
    have htr := htl t ht
    unfold truthyLang at htr
    unfold langNameOf
    cases hl : t.language with
    | none => rw [hl] at htr; cases htr
    | some s2 => simp
  simp only [loop1Bytes, hg]
  by_cases hG : tl.filter (fun t => decide (t.language = some L)) = []
  · simp [hG]
  · have hlen : 0 < (tl.filter (fun t => decide (t.language = some L))).length :=
      List.length_pos.mpr hG
    simp only [hG, if_neg hG, avgF, filterMap_cond_split, hg, hlen, if_true]
    by_cases hps : (tl.filter (fun t => decide (t.language = some L))).filterMap
        (fun t => if truthyPct t = true then t.percentage else none) = [] <;>
      simp [hps]

/-- C4 (amended): `get_user_stats` aggregates per language over the
*distinct* `{language, percentage, bytes}` triples collected by the Cypher
query, not over the user's repos: for a language L, `total_bytes` is the sum
of the bytes of the distinct truthy-language triples naming L, `repo_count`
is the number of those distinct triples, and `avg_percentage` is the
arithmetic mean of the non-null, non-zero percentages among them (0 when
there are none).  Repos contributing identical triples are collapsed by
DISTINCT, so the aggregates can undercount repos and bytes relative to the
claim's per-repo reading. -/
theorem c4_language_stats_aggregate (u : StatsUserInput) (owned : List StatsRepoInput)
    (L : String) :
    ∃ s, get_user_stats (some u) owned = some s
      ∧ alookup L s.language_stats
          = (let tl := (distinctCollect ((statsRows owned).map (fun row => row.2))).filter
                truthyLang
             let g := tl.filter (fun t => decide (t.language = some L))
             if g = [] then none
             else some ⟨(g.map (fun t => t.bytes.getD 0)).sum, g.length,
               (let ps := g.filterMap
                  (fun t => if truthyPct t = true then t.percentage else none)
                if ps = [] then 0 else ps.sum / (ps.length : ℚ))⟩) := by
  refine ⟨_, rfl, ?_⟩
  exact stats_lookup_description _ L (fun t ht => List.of_mem_filter ht)

/-- C4 counterexample: a user with two repos "u/a" and "u/b", each written
100% in Python with 100 bytes, produces two identical language triples which
`collect(DISTINCT ...)` collapses into one: the aggregate reports
total_bytes 100 and repo_count 1, while the claim's per-repo reading demands
the sum across repos (100 + 100) and the number of repos using the
language (2). -/
theorem c4_counterexample :
    ((get_user_stats (some ⟨"alice", none, 2⟩)
        [⟨"a", "u/a", none, 0, 0, some "Python", false, [], [⟨"Python", 100, 100⟩]⟩,
         ⟨"b", "u/b", none, 0, 0, some "Python", false, [], [⟨"Python", 100, 100⟩]⟩]).map
        (fun s => alookup "Python" s.language_stats))
      = some (some ⟨100, 1, 100⟩)
    ∧ ¬((100 : Int) = 100 + 100 ∧ (1 : Nat) = 2) := by
  constructor
  · norm_num [get_user_stats, statsRows, langRowsOf, statsRepoRowOf, nullLangRow, distinctCollect,
      truthyLang, truthyPct, langNameOf, statsLoop1, statsLoop2, alookup, aupdate,
      List.filter_cons, List.filterMap_cons,
      show ¬("Python" : String) = "" from by decide,
      show ¬(100 : ℚ) = 0 from by norm_num]
  · decide

/-- A Repo node as read back by queries: the unique full_name key plus the
stored attributes. -/
structure RepoNode where
  full_name : String
  props : RepoProps
deriving DecidableEq, Repr

/-- One row returned by `get_top_repositories` (neo4j_import.py
lines 235-241). -/
structure TopRepoRow where
  name : String
  full_name : String
  description : Option String
  stars : Int
  forks : Int
  language : Option String
  url : String
deriving DecidableEq, Repr

/-- The RETURN projection of `get_top_repositories`. -/
def topRepoRowOf (r : RepoNode) : TopRepoRow :=
  ⟨r.props.name, r.full_name, r.props.description, r.props.stars, r.props.forks,
   r.props.language, r.props.html_url⟩

/-- Insertion into a stars-descending list: one admissible implementation of
`ORDER BY r.stars DESC` (Cypher leaves the tie order unspecified). -/
def insertByStarsDesc (r : RepoNode) : List RepoNode → List RepoNode
  | [] => [r]
  | x :: xs =>
    if x.props.stars ≤ r.props.stars then r :: x :: xs else x :: insertByStarsDesc r xs

/-- Stars-descending insertion sort. -/
def sortByStarsDesc (l : List RepoNode) : List RepoNode :=
  l.foldr insertByStarsDesc []

/-- `get_top_repositories` (lines 230-248): the OWNS-matched repos of the
user, restricted by `WHERE NOT r.is_fork`, ordered by stars descending,
truncated by `LIMIT $limit`, projected to the returned columns. -/
def get_top_repositories (owned : List RepoNode) (limit : Nat) : List TopRepoRow :=
  ((sortByStarsDesc (owned.filter (fun r => !r.props.is_fork))).map topRepoRowOf).take limit

theorem mem_insertByStarsDesc (r x : RepoNode) (l : List RepoNode) :
    x ∈ insertByStarsDesc r l ↔ x = r ∨ x ∈ l := by
  induction l with
  | nil => simp [insertByStarsDesc]
  | cons y ys ih =>
    by_cases h : y.props.stars ≤ r.props.stars
    · simp [insertByStarsDesc, h, List.mem_cons]
    · simp only [insertByStarsDesc, if_neg h, List.mem_cons, ih]
      tauto

theorem mem_sortByStarsDesc (x : RepoNode) (l : List RepoNode) :
    x ∈ sortByStarsDesc l ↔ x ∈ l := by
  induction l with
  | nil => simp [sortByStarsDesc]
  | cons y ys ih =>
    show x ∈ insertByStarsDesc y (sortByStarsDesc ys) ↔ _
    rw [mem_insertByStarsDesc]
    simp [ih, List.mem_cons]

theorem sorted_insertByStarsDesc (r : RepoNode) (l : List RepoNode)
    (h : l.Pairwise (fun a b => b.props.stars ≤ a.props.stars)) :
    (insertByStarsDesc r l).Pairwise (fun a b => b.props.stars ≤ a.props.stars) := by
  induction l with
  | nil => simp [insertByStarsDesc]
  | cons x xs ih =>
    rcases List.pairwise_cons.mp h with ⟨hx, hxs⟩
    by_cases hc : x.props.stars ≤ r.props.stars
    · rw [insertByStarsDesc, if_pos hc]
      refine List.pairwise_cons.mpr ⟨?_, h⟩
      intro y hy
      rcases List.mem_cons.mp hy with rfl | hy'
      · exact hc
      · exact le_trans (hx y hy') hc
    · rw [insertByStarsDesc, if_neg hc]
      refine List.pairwise_cons.mpr ⟨?_, ih hxs⟩
      intro y hy
      rcases (mem_insertByStarsDesc r y xs).mp hy with rfl | hy'
      · omega
      · exact hx y hy'

theorem sorted_sortByStarsDesc (l : List RepoNode) :
    (sortByStarsDesc l).Pairwise (fun a b => b.props.stars ≤ a.props.stars) := by
  induction l with
  | nil => simp [sortByStarsDesc]
  | cons y ys ih => exact sorted_insertByStarsDesc y _ ih

/-- C7: `get_top_repositories` returns at most `limit` rows, every returned
row is the projection of a non-fork repo among the user's OWNS-linked repos,
and the rows are sorted by star count descending. -/
theorem c7_top_repositories (owned : List RepoNode) (limit : Nat) :
    (get_top_repositories owned limit).length ≤ limit
    ∧ (∀ p ∈ get_top_repositories owned limit,
        ∃ r, r ∈ owned ∧ r.props.is_fork = false ∧ p = topRepoRowOf r)
    ∧ (get_top_repositories owned limit).Pairwise (fun a b => b.stars ≤ a.stars) := by
  refine ⟨List.length_take_le _ _, ?_, ?_⟩
  · intro p hp
    have hp' : p ∈ (sortByStarsDesc (owned.filter (fun r => !r.props.is_fork))).map topRepoRowOf :=
      (List.take_sublist _ _).mem hp
    rcases List.mem_map.mp hp' with ⟨r, hr, rfl⟩
    rw [mem_sortByStarsDesc] at hr
    rcases List.mem_filter.mp hr with ⟨hro, hrf⟩
    exact ⟨r, hro, by simpa using hrf, rfl⟩
  · apply List.Pairwise.sublist (List.take_sublist _ _)
    rw [List.pairwise_map]
    exact sorted_sortByStarsDesc _

/-- A raw repository record as served by the repos listing endpoint -
exactly the fields fetch_github.py lines 85-103 read (`private` is renamed
`private_flag`, it is a Lean keyword). -/
structure RawRepo where
  name : String
  full_name : String
  description : Option String
  language : Option String
  stargazers_count : Int
  forks_count : Int
  watchers_count : Int
  size : Int
  fork : Bool
  private_flag : Bool
  created_at : String
  updated_at : String
  pushed_at : Option String
  clone_url : String
  html_url : String
  topics : Option (List String)
deriving DecidableEq, Repr

/-- The per-record normalization at lines 86-103 (`.get` reads keep their
optionality, `topics` defaults to the empty list). -/
def normalize_repo (r : RawRepo) : PreRepo :=
  ⟨r.full_name,
   ⟨r.name, r.description, r.language, r.stargazers_count, r.forks_count,
    r.watchers_count, r.size, r.fork, r.private_flag, r.created_at, r.updated_at,
    r.pushed_at, r.clone_url, r.html_url, r.topics.getD []⟩⟩

/-- The pagination while-loop of `get_user_repositories` (fetch_github.py
lines 71-109).  `pages` is the page sequence the listing endpoint serves
(page numbers start at 1); the unbounded while-loop carries explicit fuel,
`none` standing for exhausting the fuel before the endpoint serves a short
or empty page. -/
def repos_loop (pages : Nat → List RawRepo) (per_page : Nat) :
    Nat → Nat → Option (List PreRepo)
  | _, 0 => none
  | page, fuel + 1 =>
    let repos_data := pages page
    if repos_data = [] then some []
    else if repos_data.length < per_page then some (repos_data.map normalize_repo)
    else (repos_loop pages per_page (page + 1) fuel).map
      (fun rest => repos_data.map normalize_repo ++ rest)

/-- `get_user_repositories` (lines 66-111): run the pagination loop from
page 1. -/
def get_user_repositories (pages : Nat → List RawRepo) (per_page fuel : Nat) :
    Option (List PreRepo) :=
  repos_loop pages per_page 1 fuel

theorem repos_loop_spec (pages : Nat → List RawRepo) (per_page : Nat) (hpp : 1 ≤ per_page)
    (m : Nat) : ∀ (p fuel : Nat),
    (∀ k, p ≤ k → k < p + m → per_page ≤ (pages k).length) →
    (pages (p + m) = [] ∨ (pages (p + m)).length < per_page) →
    m + 1 ≤ fuel →
    repos_loop pages per_page p fuel
      = some (((List.range' p (m + 1)).flatMap pages).map normalize_repo) := by
  induction m with
  | zero =>
    intro p fuel hlong hshort hfuel
    match fuel, hfuel with
    | f + 1, _ =>
      simp only [repos_loop]
      rcases hshort with h | h
      · simp only [Nat.add_zero] at h
        rw [if_pos h]
        simp [h]
      · simp only [Nat.add_zero] at h
        by_cases he : pages p = []
        · rw [if_pos he]
          simp [he]
        · rw [if_neg he, if_pos h]
          simp
  | succ m ih =>
    intro p fuel hlong hshort hfuel
    match fuel, hfuel with
    | f + 1, hf =>
      simp only [repos_loop]
      have hp : per_page ≤ (pages p).length := hlong p le_rfl (by omega)
      have hne : ¬(pages p = []) := by
        intro h
        rw [h] at hp
        simp at hp
        omega
      rw [if_neg hne, if_neg (by omega : ¬((pages p).length < per_page))]
      rw [ih (p + 1) f (fun k hk1 hk2 => hlong k (by omega) (by omega))
        (by rw [show p + 1 + m = p + (m + 1) from by omega]; exact hshort) (by omega)]
      simp only [Option.map_some']
      conv_rhs => rw [List.range'_succ, List.flatMap_cons, List.map_append]

/-- C6: with the fixed page size 100 and pages requested consecutively from
page 1, `get_user_repositories` returns the concatenation of the records of
pages 1..N (normalized one record at a time), where page N is the first page
that is empty or shorter than 100 records; the loop stops there, so it
terminates (returns `some`) whenever the source eventually serves a short or
empty page and the fuel covers the N requests. -/
theorem c6_repository_pagination (pages : Nat → List RawRepo) (N fuel : Nat)
    (hN : 1 ≤ N)
    (hlong : ∀ k, 1 ≤ k → k < N → 100 ≤ (pages k).length)
    (hshort : pages N = [] ∨ (pages N).length < 100)
    (hfuel : N ≤ fuel) :
    get_user_repositories pages 100 fuel
      = some (((List.range' 1 N).flatMap pages).map normalize_repo) := by
  obtain ⟨m, rfl⟩ : ∃ m, N = m + 1 := ⟨N - 1, by omega⟩
  exact repos_loop_spec pages 100 (by omega) m 1 fuel
    (fun k hk1 hk2 => hlong k hk1 (by omega))
    (by rw [show (1 : Nat) + m = m + 1 from by omega]; exact hshort) (by omega)

/-- Witness for C6: a source whose first page is already empty gives an
empty listing after one request. -/
theorem c6_repository_pagination_witness :
    get_user_repositories (fun _ => []) 100 1
      = some (((List.range' 1 1).flatMap (fun _ => ([] : List RawRepo))).map normalize_repo) :=
  c6_repository_pagination (fun _ => []) 1 1 (le_refl 1)
    (fun k hk1 hk2 => by omega) (Or.inl rfl) (le_refl 1)

/-- An HTTP response as `_make_request` (fetch_github.py lines 19-38)
inspects it: status code, whether the lower-cased body text contains
"rate limit", the X-RateLimit-Reset header (0 when absent, matching the
`.get(..., 0)` default) and the JSON payload. -/
structure HttpResponse (α : Type) where
  status : Nat
  body_has_rate_limit : Bool
  rate_limit_reset : Int
  payload : α
deriving DecidableEq, Repr

/-- The message of the `requests` library's HTTPError for a failing status:
it names the status code and the requested URL
("<status> Client Error: ... for url: <url>"). -/
def httpErrorText (status : Nat) (url : String) : String :=
  toString status ++ " Client Error: for url: " ++ url

/-- `_make_request` (lines 19-38) over the successive responses the server
gives to one logical request (same URL, same params).  A 403 whose body
signals the rate limit triggers `time.sleep(max(0, reset_time -
current_time + 1))` and a recursive retry of the identical request, the
clock advancing by the slept duration; any other status at or above 400
raises through `raise_for_status` and is re-raised as "GitHub API request
failed: <cause>"; otherwise the JSON payload is returned.  The first result
component records the sleeps performed, in order.  An empty response list
stands for a network failure (`requests.exceptions.RequestException`). -/
def make_request (url : String) : List (HttpResponse α) → Int → List Int × Except String α
  | [], _ => ([], .error "GitHub API request failed: connection error")
  | r :: rest, now =>
    if r.status = 403 ∧ r.body_has_rate_limit = true then
      let sleep_time := max 0 (r.rate_limit_reset - now + 1)
      let result := make_request url rest (now + sleep_time)
      (sleep_time :: result.1, result.2)
    else if 400 ≤ r.status then
      ([], .error ("GitHub API request failed: " ++ httpErrorText r.status url))
    else ([], .ok r.payload)

/-- The sleep durations of a run of rate-limited responses: each is
max(0, reset - now + 1), the clock advancing by each sleep. -/
def rateLimitSleeps : List (HttpResponse α) → Int → List Int
  | [], _ => []
  | r :: rest, now =>
    let s := max 0 (r.rate_limit_reset - now + 1)
    s :: rateLimitSleeps rest (now + s)

theorem rateLimitSleeps_length (rs : List (HttpResponse α)) :
    ∀ now, (rateLimitSleeps rs now).length = rs.length := by
  induction rs with
  | nil => intro now; rfl
  | cons r rest ih => intro now; simp [rateLimitSleeps, ih]

theorem make_request_rate_limited_run (url : String) (rs : List (HttpResponse α))
    (final : HttpResponse α) :
    ∀ now, (∀ r ∈ rs, r.status = 403 ∧ r.body_has_rate_limit = true) →
    final.status < 400 →
    make_request url (rs ++ [final]) now = (rateLimitSleeps rs now, .ok final.payload) := by
  induction rs with
  | nil =>
    intro now h hf
    have h1 : ¬(final.status = 403 ∧ final.body_has_rate_limit = true) := by
      intro hx
      omega
    simp only [List.nil_append, make_request, rateLimitSleeps]
    rw [if_neg h1, if_neg (by omega : ¬(400 ≤ final.status))]
  | cons r rest ih =>
    intro now h hf
    have hr := h r (List.mem_cons_self _ _)
    simp only [List.cons_append, make_request, rateLimitSleeps]
    rw [if_pos hr]
    have hih := ih (now + max 0 (r.rate_limit_reset - now + 1))
      (fun x hx => h x (List.mem_cons_of_mem _ hx)) hf
    simp only [List.append_eq] at hih ⊢
    rw [hih]

/-- C3 (amended): whenever the server answers a request with a run of
rate-limited responses (HTTP 403 with the rate-limit marker in the body)
followed by a successful one, the fetcher sleeps
`max(0, reset - now + 1)` seconds per occurrence - the one-second buffer is
added *before* flooring at zero, not after - retries the identical request
exactly once per occurrence, and finally returns the originally requested
data with no error surfaced to the caller. -/
theorem c3_rate_limit_retry (url : String) (rs : List (HttpResponse α))
    (final : HttpResponse α) (now : Int)
    (hrl : ∀ r ∈ rs, r.status = 403 ∧ r.body_has_rate_limit = true)
    (hfinal : final.status < 400) :
    make_request url (rs ++ [final]) now = (rateLimitSleeps rs now, .ok final.payload)
    ∧ (rateLimitSleeps rs now).length = rs.length :=
  ⟨make_request_rate_limited_run url rs final now hrl hfinal,
   rateLimitSleeps_length rs now⟩

/-- C3 counterexample: with the reset header absent (read as 0) and the
clock at 100, the code sleeps max(0, 0 - 100 + 1) = 0 seconds before its
single retry, not the claimed (max(0, 0 - 100)) + 1 = 1 second: the
one-second buffer sits inside the floor at zero. -/
theorem c3_counterexample :
    (make_request "https://api.github.com/users/alice"
        [⟨403, true, 0, "data"⟩, ⟨200, false, 0, "data"⟩] 100)
      = ([0], .ok "data")
    ∧ ¬([(0 : Int)] = [max 0 ((0 : Int) - 100) + 1]) := by
  constructor
  · simp [make_request, httpErrorText]
  · simp

/-- Witness for C3: one rate-limited response with the reset 5 seconds
ahead, then success - the fetcher sleeps 6 seconds and returns the data. -/
theorem c3_rate_limit_retry_witness :
    make_request "https://api.github.com/users/alice"
        ([⟨403, true, 1005, "x"⟩] ++ [⟨200, false, 0, "data"⟩]) 1000
      = (rateLimitSleeps [⟨403, true, 1005, "x"⟩] 1000, .ok "data")
    ∧ (rateLimitSleeps ([⟨403, true, 1005, "x"⟩] : List (HttpResponse String)) 1000).length
        = [(⟨403, true, 1005, "x"⟩ : HttpResponse String)].length :=
  c3_rate_limit_retry "https://api.github.com/users/alice" [⟨403, true, 1005, "x"⟩]
    ⟨200, false, 0, "data"⟩ 1000
    (by intro r hr; simp at hr; rw [hr]; exact ⟨rfl, rfl⟩) (by decide)

/-- The raw user JSON fields `get_user_info` (fetch_github.py lines 40-64)
reads. -/
structure RawUser where
  login : String
  name : Option String
  bio : Option String
  location : Option String
  company : Option String
  blog : Option String
  email : Option String
  public_repos : Int
  followers : Int
  following : Int
  created_at : String
  updated_at : String
  avatar_url : String
deriving DecidableEq, Repr

/-- The user-dict construction at lines 46-60. -/
def normalize_user (u : RawUser) : UserData :=
  ⟨u.login,
   ⟨u.name, u.bio, u.location, u.company, u.blog, u.email, u.public_repos,
    u.followers, u.following, u.created_at, u.updated_at, u.avatar_url⟩⟩

/-- Config.GITHUB_API_BASE_URL (config.py line 12). -/
def base_url : String := "https://api.github.com"

/-- Whether `pat` is a prefix of `l` (character lists). -/
def charsPrefix : List Char → List Char → Bool
  | [], _ => true
  | _ :: _, [] => false
  | c :: cs, d :: ds => decide (c = d) && charsPrefix cs ds

/-- Whether `pat` occurs as a contiguous substring of `l`. -/
def charsContains (pat : List Char) : List Char → Bool
  | [] => charsPrefix pat []
  | c :: cs => charsPrefix pat (c :: cs) || charsContains pat cs

/-- Python's `pat in s` on strings. -/
def strContains (s pat : String) : Bool := charsContains pat.data s.data

theorem charsPrefix_append_right (pat : List Char) :
    ∀ l m, charsPrefix pat l = true → charsPrefix pat (l ++ m) = true := by
  induction pat with
  | nil => intro l m h; rfl
  | cons c cs ih =>
    intro l m h
    cases l with
    | nil => cases h
    | cons d ds =>
      simp only [charsPrefix, Bool.and_eq_true] at h
      simp only [List.cons_append, charsPrefix, Bool.and_eq_true]
      exact ⟨h.1, ih ds m h.2⟩

theorem charsContains_nil_pat : ∀ l, charsContains ([] : List Char) l = true := by
  intro l
  cases l with
  | nil => rfl
  | cons c cs => simp [charsContains, charsPrefix]

theorem charsContains_append_right (pat l m : List Char)
    (h : charsContains pat l = true) : charsContains pat (l ++ m) = true := by
  induction l with
  | nil =>
    have hp : pat = [] := by
      cases pat with
      | nil => rfl
      | cons c cs => cases h
    rw [hp]
    exact charsContains_nil_pat m
  | cons c cs ih =>
    simp only [charsContains, Bool.or_eq_true] at h
    rcases h with h | h
    · simp only [List.cons_append, charsContains, Bool.or_eq_true]
      exact Or.inl (charsPrefix_append_right pat _ m h)
    · simp only [List.cons_append, charsContains, Bool.or_eq_true]
      exact Or.inr (ih h)

theorem strContains_append_right (s t pat : String) (h : strContains s pat = true) :
    strContains (s ++ t) pat = true := by
  unfold strContains at h ⊢
  rw [String.data_append]
  exact charsContains_append_right _ _ _ h

/-- `_make_request` never fails with anything but a
"GitHub API request failed: ..." message. -/
theorem make_request_error_prefix (url : String) (responses : List (HttpResponse α)) :
    ∀ now e, (make_request url responses now).2 = .error e →
      ∃ c, e = "GitHub API request failed: " ++ c := by
  induction responses with
  | nil =>
    intro now e he
    simp only [make_request] at he
    cases he
    exact ⟨"connection error", rfl⟩
  | cons r rest ih =>
    intro now e he
    simp only [make_request] at he
    by_cases hc : r.status = 403 ∧ r.body_has_rate_limit = true
    · rw [if_pos hc] at he
      exact ih _ _ he
    · rw [if_neg hc] at he
      by_cases h4 : 400 ≤ r.status
      · rw [if_pos h4] at he
        cases he
        exact ⟨httpErrorText r.status url, rfl⟩
      · rw [if_neg h4] at he
        cases he

/-- The domain-level not-found message built at fetch_github.py line 63. -/
def userNotFoundMsg (username : String) : String := "User '" ++ username ++ "' not found"

/-- `get_user_info` (lines 40-64): request the profile URL and normalize the
result; a failure whose message contains "404" is re-raised as the
domain-level not-found error, any other failure is re-raised unchanged. -/
def get_user_info (responses : List (HttpResponse RawUser)) (now : Int)
    (username : String) : Except String UserData :=
  match (make_request (base_url ++ "/users/" ++ username) responses now).2 with
  | .ok u => .ok (normalize_user u)
  | .error e =>
    if strContains e "404" = true then .error (userNotFoundMsg username) else .error e

theorem strContains_404_of_httpError (url : String) :
    strContains ("GitHub API request failed: " ++ httpErrorText 404 url) "404" = true := by
  have hassoc : ("GitHub API request failed: " ++ httpErrorText 404 url)
      = ("GitHub API request failed: "
          ++ (toString (404 : Nat) ++ " Client Error: for url: ")) ++ url := by
    unfold httpErrorText
    simp [String.append_assoc]
  rw [hassoc]
  apply strContains_append_right
  decide

/-- C8 (amended): on the profile-fetch error path, a failure whose message
contains the substring "404" - which includes every genuine 404 not-found
response, but also e.g. a 500 on a URL that happens to contain "404" - is
translated into the domain-level "User <login> not found" failure, every
failure without "404" in its message is re-raised as the generic
"GitHub API request failed: ..." message carrying the cause, and no other
error outcome is possible. -/
theorem c8_user_info_error_translation (responses : List (HttpResponse RawUser)) (now : Int)
    (username : String) :
    (∀ r rest, responses = r :: rest → r.status = 404 →
        get_user_info responses now username = .error (userNotFoundMsg username))
    ∧ (∀ e, (make_request (base_url ++ "/users/" ++ username) responses now).2 = .error e →
        strContains e "404" = false → get_user_info responses now username = .error e)
    ∧ ((∃ u, get_user_info responses now username = .ok (normalize_user u))
        ∨ get_user_info responses now username = .error (userNotFoundMsg username)
        ∨ ∃ c, get_user_info responses now username
            = .error ("GitHub API request failed: " ++ c)) := by
  refine ⟨?_, ?_, ?_⟩
  · intro r rest hresp h404
    have hcond : ¬(r.status = 403 ∧ r.body_has_rate_limit = true) := fun hx => by omega
    have hge : (400 : Nat) ≤ r.status := by omega
    unfold get_user_info
    rw [hresp]
    simp only [make_request, if_neg hcond, if_pos hge]
    rw [h404, if_pos (strContains_404_of_httpError _)]
  · intro e he hnc
    unfold get_user_info
    rw [he]
    simp [hnc]
  · cases hm : (make_request (base_url ++ "/users/" ++ username) responses now).2 with
    | ok u =>
      left
      exact ⟨u, by unfold get_user_info; rw [hm]⟩
    | error e =>
      by_cases hc : strContains e "404" = true
      · right; left
        unfold get_user_info
        rw [hm]
        simp [hc]
      · right; right
        obtain ⟨c, hcshape⟩ := make_request_error_prefix _ responses now e hm
        refine ⟨c, ?_⟩
        have hval : get_user_info responses now username = .error e := by
          unfold get_user_info
          rw [hm]
          simp [hc]
        rw [hval, hcshape]

/-- A concrete raw user payload. -/
def sampleRawUser : RawUser :=
  ⟨"team404", none, none, none, none, none, none, 0, 0, 0, "", "", ""⟩

/-- C8 counterexample: for the login "team404" a 500 server error - not a
not-found condition - is nevertheless translated into the domain-level
not-found failure, because the library error message embeds the request URL
and the URL contains "404"; the claim demands the generic failure carrying
the cause for every non-not-found error. -/
theorem c8_counterexample :
    get_user_info [⟨500, false, 0, sampleRawUser⟩] 0 "team404"
      = .error (userNotFoundMsg "team404")
    ∧ userNotFoundMsg "team404"
        ≠ "GitHub API request failed: "
            ++ httpErrorText 500 (base_url ++ "/users/" ++ "team404") := by
  constructor
  · rfl
  · decide

/-- Witness for C8 at a genuine 404 response: the login "alice" yields the
domain-level not-found failure. -/
theorem c8_user_info_error_translation_witness :
    get_user_info [⟨404, false, 0, sampleRawUser⟩] 0 "alice"
      = .error (userNotFoundMsg "alice") :=
  (c8_user_info_error_translation [⟨404, false, 0, sampleRawUser⟩] 0 "alice").1
    ⟨404, false, 0, sampleRawUser⟩ [] rfl rfl

/-- The environment variables config.py reads (`none` = unset). -/
structure AppEnv where
  github_token : Option String
  neo4j_uri : Option String
  neo4j_username : Option String
  neo4j_password : Option String
deriving DecidableEq, Repr

/-- `os.getenv` with a default. -/
def getenvD (v : Option String) (d : String) : String := v.getD d

/-- Config.NEO4J_URI (config.py line 15): the local bolt URI when unset. -/
def cfgNeo4jUri (e : AppEnv) : String := getenvD e.neo4j_uri "bolt://localhost:7687"

/-- Config.NEO4J_PASSWORD (config.py line 17): "password" when unset. -/
def cfgNeo4jPassword (e : AppEnv) : String := getenvD e.neo4j_password "password"

/-- Python truthiness of an optional string. -/
def truthyStr : Option String → Bool
  | none => false
  | some s => decide (s ≠ "")

/-- `Config.validate_config` (config.py lines 26-43): a falsy GITHUB_TOKEN
only prints a warning; NEO4J_URI and NEO4J_PASSWORD are tested *after*
defaulting, and a falsy value is appended to `missing_vars`, raising
ValueError when that list is non-empty.  Returns (warnings, outcome). -/
def validate_config (e : AppEnv) : List String × Except String Bool :=
  let warnings :=
    if truthyStr e.github_token = true then []
    else ["Warning: GITHUB_TOKEN not set. API rate limiting will be severe."]
  let missing_vars :=
    (if cfgNeo4jUri e = "" then ["NEO4J_URI"] else [])
      ++ (if cfgNeo4jPassword e = "" then ["NEO4J_PASSWORD"] else [])
  (warnings,
   if missing_vars = [] then .ok true
   else .error ("Missing required environment variables: "
     ++ String.intercalate ", " missing_vars))

/-- The startup validation of app.py lines 29-34: `validate_config` runs in
a try/except whose handler only logs - the app proceeds to serve traffic on
both outcomes.  Returns whether the app serves. -/
def app_startup_serves (e : AppEnv) : Bool :=
  match (validate_config e).2 with
  | .ok _ => true
  | .error _ => true

/-- C9 (amended): `validate_config` raises exactly when the *defaulted*
NEO4J_URI or NEO4J_PASSWORD resolves to the empty string - a variable merely
missing from the environment falls back to "bolt://localhost:7687" /
"password" and never raises; the GitHub token never influences the verdict
(it only adds a warning); and the app.py startup swallows a validation
failure and serves traffic regardless - there is no fail-fast. -/
theorem c9_config_validation (e : AppEnv) (tok : Option String) :
    ((∃ m, (validate_config e).2 = .error m)
        ↔ (cfgNeo4jUri e = "" ∨ cfgNeo4jPassword e = ""))
    ∧ (validate_config { e with github_token := tok }).2 = (validate_config e).2
    ∧ app_startup_serves e = true := by
  refine ⟨?_, ?_, ?_⟩
  · by_cases h1 : cfgNeo4jUri e = "" <;> by_cases h2 : cfgNeo4jPassword e = "" <;>
      simp [validate_config, h1, h2]
  · by_cases h1 : cfgNeo4jUri e = "" <;> by_cases h2 : cfgNeo4jPassword e = "" <;>
      simp [validate_config, cfgNeo4jUri, cfgNeo4jPassword, getenvD, h1, h2] <;>
      simp [cfgNeo4jUri, cfgNeo4jPassword, getenvD] at h1 h2 <;> simp [h1, h2]
  · unfold app_startup_serves
    cases (validate_config e).2 <;> rfl

/-- C9 counterexample: with every variable missing from the environment the
validation succeeds (the defaults are truthy), contradicting "raises when
the URI or credentials are missing from the environment"; and even for an
environment on which validation *does* raise (empty NEO4J_PASSWORD), the
startup code swallows the error and serves traffic, contradicting
"fails fast". -/
theorem c9_counterexample :
    (validate_config ⟨none, none, none, none⟩).2 = .ok true
    ∧ (validate_config ⟨none, some "bolt://x", none, some ""⟩).2
        = .error "Missing required environment variables: NEO4J_PASSWORD"
    ∧ app_startup_serves ⟨none, some "bolt://x", none, some ""⟩ = true := by
  refine ⟨rfl, rfl, rfl⟩
